import Mathlib

/-!
# Typed-container tabular serialization engine: a verification model

This development embeds the typed-container tabular serialization engine
(Field/Container data model, schema builder, table writer, table reader,
backend state) as executable Lean definitions and proves the engine's
contract properties: round-trip of write-then-read, unit normalization,
schema fixing and mismatch rejection, open-mode semantics, append-only
row storage, and scoped resource release.

The engine implementation itself is not present in the repository sources
(only its documentation and callers are), so every definition below is
modelled from the specification text, faithful to its words.
-/

namespace TabularEngine

/-- Modelled from the spec: the semantic kind of a field — integer, floating
point, boolean, or fixed-shape numeric array (the missing `Field` kind enum
of the container model). -/
inductive FieldKind where
  | int : FieldKind
  | float : FieldKind
  | bool : FieldKind
  | array : Nat → FieldKind
  deriving DecidableEq, Repr

/-- An exact fraction of integers, the model of a floating-point quantity:
the spec's concrete scenario asserts exact decimal results of unit
conversion, so float values are carried exactly, as numerator over
denominator, with no rounding. -/
structure Frac where
  num : Int
  den : Int
  deriving DecidableEq, Repr

/-- Fraction multiplication (componentwise, exact). -/
def Frac.mul (a b : Frac) : Frac := ⟨a.num * b.num, a.den * b.den⟩

/-- Fraction division (cross multiplication, exact). -/
def Frac.div (a b : Frac) : Frac := ⟨a.num * b.den, a.den * b.num⟩

/-- Modelled from the spec: a physical unit tag, carried as the conversion
factor to a fixed base unit (e.g. meters factor 1, centimeters factor 1/100);
converting a value between units multiplies by the ratio of factors. -/
structure UnitTag where
  factor : Frac
  deriving DecidableEq, Repr

/-- The meters unit tag (base length unit, factor 1). -/
def meters : UnitTag := ⟨⟨1, 1⟩⟩

/-- The centimeters unit tag (factor 1/100 of the base length unit). -/
def centimeters : UnitTag := ⟨⟨1, 100⟩⟩

/-- Modelled from the spec: a primitive stored value — row cells are integers,
floats (as exact fractions in this model), booleans, or numeric arrays. -/
inductive Value where
  | vInt : Int → Value
  | vFloat : Frac → Value
  | vBool : Bool → Value
  | vArr : List Frac → Value
  deriving DecidableEq, Repr

/-- The kind a value belongs to; arrays carry their fixed shape. -/
def Value.kindOf : Value → FieldKind
  | .vInt _ => .int
  | .vFloat _ => .float
  | .vBool _ => .bool
  | .vArr xs => .array xs.length

/-- Modelled from the spec: the error taxonomy reported synchronously to the
caller (`SchemaMismatch`, `GroupExists`, `DuplicateColumn`, `UnsupportedType`,
`ResourceClosed`). -/
inductive EngineError where
  | SchemaMismatch : EngineError
  | GroupExists : EngineError
  | DuplicateColumn : EngineError
  | UnsupportedType : EngineError
  | ResourceClosed : EngineError
  deriving DecidableEq, Repr

mutual

/-- Modelled from the spec: the static declaration shape of one field slot of
a container type: a scalar slot with a kind and an optional declared unit, or
a nested container (a named mapping of sub-containers with keys enumerable
ahead of time is declared the same way, one nested entry per key). -/
inductive FieldSpec where
  | scalar : FieldKind → Option UnitTag → FieldSpec
  | nested : FieldSpecs → FieldSpec

/-- The ordered field declarations of a container type (an ordered map from
names to field declarations, in declaration order). -/
inductive FieldSpecs where
  | nil : FieldSpecs
  | cons : String → FieldSpec → FieldSpecs → FieldSpecs

end

mutual

/-- Decidable equality for field declarations. -/
def FieldSpec.deq : (a b : FieldSpec) → Decidable (a = b)
  | .scalar k u, .scalar k2 u2 =>
    match decEq k k2, decEq u u2 with
    | isTrue h1, isTrue h2 => isTrue (by rw [h1, h2])
    | isFalse h, _ => isFalse (by intro he; injection he; contradiction)
    | _, isFalse h => isFalse (by intro he; injection he; contradiction)
  | .scalar _ _, .nested _ => isFalse (by intro h; exact FieldSpec.noConfusion h)
  | .nested _, .scalar _ _ => isFalse (by intro h; exact FieldSpec.noConfusion h)
  | .nested fs, .nested gs =>
    match FieldSpecs.deq fs gs with
    | isTrue h => isTrue (by rw [h])
    | isFalse h => isFalse (by intro he; injection he; contradiction)

/-- Decidable equality for ordered field-declaration lists. -/
def FieldSpecs.deq : (a b : FieldSpecs) → Decidable (a = b)
  | .nil, .nil => isTrue rfl
  | .nil, .cons _ _ _ => isFalse (by intro h; exact FieldSpecs.noConfusion h)
  | .cons _ _ _, .nil => isFalse (by intro h; exact FieldSpecs.noConfusion h)
  | .cons n s xs, .cons m t ys =>
    match decEq n m, FieldSpec.deq s t, FieldSpecs.deq xs ys with
    | isTrue h1, isTrue h2, isTrue h3 => isTrue (by rw [h1, h2, h3])
    | isFalse h, _, _ => isFalse (by intro he; injection he; contradiction)
    | _, isFalse h, _ => isFalse (by intro he; injection he; contradiction)
    | _, _, isFalse h => isFalse (by intro he; injection he; contradiction)

end

instance : DecidableEq FieldSpec := FieldSpec.deq

instance : DecidableEq FieldSpecs := FieldSpecs.deq

/-- Modelled from the spec: a container type — a type name plus the ordered
field declarations (declared once, immutable afterwards). -/
structure ContainerType where
  type_name : String
  fields : FieldSpecs
  deriving DecidableEq

mutual

/-- Modelled from the spec: the current value of one field of a container
instance — a leaf holds the value together with the unit it was supplied in,
a sub-entry holds a nested container's values. -/
inductive FieldVal where
  | leaf : Value → Option UnitTag → FieldVal
  | sub : FieldVals → FieldVal

/-- The ordered current values of a container instance, one entry per
declared field in declaration order. -/
inductive FieldVals where
  | nil : FieldVals
  | cons : String → FieldVal → FieldVals → FieldVals

end

mutual

/-- Decidable equality for container instance values. -/
def FieldVal.deq : (a b : FieldVal) → Decidable (a = b)
  | .leaf v u, .leaf w u2 =>
    match decEq v w, decEq u u2 with
    | isTrue h1, isTrue h2 => isTrue (by rw [h1, h2])
    | isFalse h, _ => isFalse (by intro he; injection he; contradiction)
    | _, isFalse h => isFalse (by intro he; injection he; contradiction)
  | .leaf _ _, .sub _ => isFalse (by intro h; exact FieldVal.noConfusion h)
  | .sub _, .leaf _ _ => isFalse (by intro h; exact FieldVal.noConfusion h)
  | .sub fs, .sub gs =>
    match FieldVals.deq fs gs with
    | isTrue h => isTrue (by rw [h])
    | isFalse h => isFalse (by intro he; injection he; contradiction)

/-- Decidable equality for ordered instance-value lists. -/
def FieldVals.deq : (a b : FieldVals) → Decidable (a = b)
  | .nil, .nil => isTrue rfl
  | .nil, .cons _ _ _ => isFalse (by intro h; exact FieldVals.noConfusion h)
  | .cons _ _ _, .nil => isFalse (by intro h; exact FieldVals.noConfusion h)
  | .cons n s xs, .cons m t ys =>
    match decEq n m, FieldVal.deq s t, FieldVals.deq xs ys with
    | isTrue h1, isTrue h2, isTrue h3 => isTrue (by rw [h1, h2, h3])
    | isFalse h, _, _ => isFalse (by intro he; injection he; contradiction)
    | _, isFalse h, _ => isFalse (by intro he; injection he; contradiction)
    | _, _, isFalse h => isFalse (by intro he; injection he; contradiction)

end

instance : DecidableEq FieldVal := FieldVal.deq

instance : DecidableEq FieldVals := FieldVals.deq

/-- A container instance: the ordered current values of its fields. -/
abbrev Inst := FieldVals

/-- Modelled from the spec: one flat column descriptor of a schema —
flattened (dotted-path) name, storage type, unit, and originating path. -/
structure ColumnDescriptor where
  flat_name : String
  storage_type : FieldKind
  unit : Option UnitTag
  source_path : List String
  deriving DecidableEq, Repr

/-- Modelled from the spec: a schema is the ordered flat column list derived
from a container type. -/
structure Schema where
  columns : List ColumnDescriptor
  deriving DecidableEq, Repr

/-- The flattened dotted name of a field path. -/
def flatName (path : List String) : String :=
  String.intercalate "." path

mutual

/-- Depth-first flattening of one named field declaration into ordered column
descriptors: a scalar field emits one column named by the dotted path from
root to field; a nested container recurses with the path extended by the
field's name. -/
def flattenColsOne (path : List String) (name : String) : FieldSpec → List ColumnDescriptor
  | .scalar k u => [⟨flatName (path ++ [name]), k, u, path ++ [name]⟩]
  | .nested fs => flattenColsMany (path ++ [name]) fs

/-- Depth-first flattening of field declarations into the ordered column
descriptor list, in declaration order. -/
def flattenColsMany (path : List String) : FieldSpecs → List ColumnDescriptor
  | .nil => []
  | .cons n s rest => flattenColsOne path n s ++ flattenColsMany path rest

end

/-- Modelled from the spec: `build_schema(container_type) -> Schema` — the
depth-first walk of the field declarations, failing with `DuplicateColumn`
when two distinct paths flatten to the same name. A pure function of the
container type's field declarations. -/
def build_schema (t : ContainerType) : Except EngineError Schema :=
  let cols := flattenColsMany [] t.fields
  if (cols.map (fun c => c.flat_name)).Nodup then .ok ⟨cols⟩
  else .error .DuplicateColumn

/-- Modelled from the spec: the value transformation applied at write time —
a field carrying a declared unit has its value converted to that unit's
canonical representation before storage; non-unit kinds are stored as-is. -/
def convertLeaf (decl : Option UnitTag) (v : Value) (sup : Option UnitTag) : Value :=
  match v, sup, decl with
  | .vFloat q, some us, some ud =>
      if us = ud then .vFloat q else .vFloat ((q.mul us.factor).div ud.factor)
  | w, _, _ => w

mutual

/-- Re-flattening one field's current value against its declaration; a shape
or kind difference fails with `SchemaMismatch`; unit-carrying leaves are
converted to the declared unit. -/
def flattenValsOne : FieldSpec → FieldVal → Except EngineError (List Value)
  | .scalar k u, .leaf v su =>
      if v.kindOf = k then .ok [convertLeaf u v su] else .error .SchemaMismatch
  | .nested fs, .sub gs => flattenValsMany fs gs
  | _, _ => .error .SchemaMismatch

/-- Modelled from the spec: re-flattening a container instance against field
declarations into one row of primitive values, in column order; a shape or
kind or name difference fails with `SchemaMismatch`. -/
def flattenValsMany : FieldSpecs → FieldVals → Except EngineError (List Value)
  | .nil, .nil => .ok []
  | .cons n s ss, .cons m v vs =>
      if n = m then
        match flattenValsOne s v with
        | .ok inner =>
          match flattenValsMany ss vs with
          | .ok rest => .ok (inner ++ rest)
          | .error e => .error e
        | .error e => .error e
      else .error .SchemaMismatch
  | _, _ => .error .SchemaMismatch

end

mutual

/-- Un-flattening one field's value off the front of a row of stored column
values, reapplying the stored unit as the value's unit tag; returns the
value and the unconsumed tail. -/
def unflattenOne : FieldSpec → List Value → Option (FieldVal × List Value)
  | .scalar _ _, [] => none
  | .scalar _ u, v :: row => some (.leaf v u, row)
  | .nested fs, row =>
    match unflattenMany fs row with
    | some (gs, row1) => some (.sub gs, row1)
    | none => none

/-- Modelled from the spec: un-flattening stored column values back onto the
(possibly nested) field paths of the target container type, reapplying the
stored unit as the value's unit tag; returns the reconstructed values and
the unconsumed tail of the row. -/
def unflattenMany : FieldSpecs → List Value → Option (FieldVals × List Value)
  | .nil, row => some (.nil, row)
  | .cons n s ss, row =>
    match unflattenOne s row with
    | some (v, row1) =>
      match unflattenMany ss row1 with
      | some (rest, row2) => some (.cons n v rest, row2)
      | none => none
    | none => none

end

mutual

/-- The read-back image of one field value: the leaf value converted to the
declared unit and tagged with it. -/
def normalizeOne : FieldSpec → FieldVal → FieldVal
  | .scalar _ u, .leaf v su => .leaf (convertLeaf u v su) u
  | .nested fs, .sub gs => .sub (normalizeMany fs gs)
  | _, v => v

/-- The read-back image of an instance: every leaf value converted to the
declared unit and tagged with it, names taken from the declarations. -/
def normalizeMany : FieldSpecs → FieldVals → FieldVals
  | .cons n s ss, .cons _ v vs => .cons n (normalizeOne s v) (normalizeMany ss vs)
  | _, _ => .nil

end

mutual

/-- One leaf was supplied with exactly the unit declared for its field (both
absent, or both the same tag). -/
def unitsMatchOne : FieldSpec → FieldVal → Bool
  | .scalar _ u, .leaf _ su => su = u
  | .nested fs, .sub gs => unitsMatchMany fs gs
  | _, _ => false

/-- Every leaf of the instance was supplied with exactly the unit declared
for its field. -/
def unitsMatchMany : FieldSpecs → FieldVals → Bool
  | .nil, .nil => true
  | .cons _ s ss, .cons _ v vs => unitsMatchOne s v && unitsMatchMany ss vs
  | _, _ => false

end

/-- Flatten a list of instances into rows, failing on the first instance
that does not flatten. -/
def flattenAll (specs : FieldSpecs) : List Inst → Except EngineError (List (List Value))
  | [] => .ok []
  | c :: cs =>
    match flattenValsMany specs c with
    | .ok r =>
      match flattenAll specs cs with
      | .ok rs => .ok (r :: rs)
      | .error e => .error e
    | .error e => .error e

/-- A stored row: an ordered tuple of primitive values matching the schema
columns positionally. -/
abbrev Row := List Value

/-- Modelled from the spec: a table — its fixed schema, persisted per-column
metadata, and the append-only ordered sequence of rows. -/
structure Table where
  schema : Schema
  metadata : List (String × String)
  rows : List Row
  deriving DecidableEq

/-- A group: named tables within one namespace of a sink. -/
abbrev Group := List (String × Table)

/-- A sink: named groups of the backing store. -/
abbrev Sink := List (String × Group)

/-- Look a key up in an ordered association list. -/
def getKey {β : Type} : List (String × β) → String → Option β
  | [], _ => none
  | (n, x) :: rest, k => if n = k then some x else getKey rest k

/-- Bind a key in an ordered association list, replacing an existing entry
in place or appending a new one. -/
def setKey {β : Type} : List (String × β) → String → β → List (String × β)
  | [], k, b => [(k, b)]
  | (n, x) :: rest, k, b =>
      if n = k then (k, b) :: rest else (n, x) :: setKey rest k b

/-- The per-column unit metadata string persisted for a column. -/
def unitString : Option UnitTag → String
  | none => ""
  | some u => toString u.factor.num ++ "/" ++ toString u.factor.den

/-- The persisted per-column metadata derived from a schema. -/
def metadataOf (sch : Schema) : List (String × String) :=
  sch.columns.map (fun c => (c.flat_name, unitString c.unit))

/-- Modelled from the spec: the writer open modes — `Overwrite` destroys any
existing content at the sink, `AppendCreateOnly` fails if the target group
exists, `AppendOrExtend` creates the group if absent and otherwise continues
appending. -/
inductive WriterMode where
  | Overwrite : WriterMode
  | AppendCreateOnly : WriterMode
  | AppendOrExtend : WriterMode
  deriving DecidableEq

/-- Modelled from the spec: the reader open modes, kept for symmetry with the
writer's physical file modes. -/
inductive ReaderMode where
  | ReadOnly : ReaderMode
  | ReadWrite : ReaderMode
  | Append : ReaderMode
  | Truncate : ReaderMode
  deriving DecidableEq

/-- Modelled from the spec: `open(sink, mode)` for the table writer.
`Overwrite` destroys any existing content at the sink before first write and
creates the target group; `AppendCreateOnly` fails with `GroupExists` when
the target group exists, else creates it; `AppendOrExtend` creates the group
if absent and otherwise leaves the sink untouched (schema validation happens
at write time). On failure the sink is returned unchanged. -/
def openWriter (s : Sink) (g : String) : WriterMode → Option EngineError × Sink
  | .Overwrite => (none, [(g, [])])
  | .AppendCreateOnly =>
    match getKey s g with
    | some _ => (some .GroupExists, s)
    | none => (none, setKey s g [])
  | .AppendOrExtend =>
    match getKey s g with
    | some _ => (none, s)
    | none => (none, setKey s g [])

/-- Modelled from the spec: `write(handle, table_name, container)` — on the
first call for a table, builds the schema, persists it with per-column
metadata, and appends the first row; on subsequent calls re-flattens the
container against the already-fixed schema and appends, failing with
`SchemaMismatch` (sink unchanged) when the flattened column set or types
differ. -/
def writeTable (s : Sink) (g t : String) (ct : ContainerType) (inst : Inst) :
    Option EngineError × Sink :=
  let grp := (getKey s g).getD []
  match getKey grp t with
  | none =>
    match build_schema ct with
    | .error e => (some e, s)
    | .ok sch =>
      match flattenValsMany ct.fields inst with
      | .error e => (some e, s)
      | .ok row => (none, setKey s g (setKey grp t ⟨sch, metadataOf sch, [row]⟩))
  | some tb =>
    match flattenValsMany ct.fields inst with
    | .error e => (some e, s)
    | .ok row =>
      if tb.schema.columns = flattenColsMany [] ct.fields then
        (none, setKey s g (setKey grp t { tb with rows := tb.rows ++ [row] }))
      else (some .SchemaMismatch, s)

/-- Reconstruct one container instance from one stored row (the whole row
must be consumed). -/
def readRow (specs : FieldSpecs) (r : Row) : Option Inst :=
  match unflattenMany specs r with
  | some (vals, []) => some vals
  | _ => none

/-- Reconstruct container instances from the stored rows, one per row, in
storage order. -/
def readRows (specs : FieldSpecs) : List Row → Except EngineError (List Inst)
  | [] => .ok []
  | r :: rs =>
    match readRow specs r with
    | some i =>
      match readRows specs rs with
      | .ok is => .ok (i :: is)
      | .error e => .error e
    | none => .error .SchemaMismatch

/-- Modelled from the spec: `read(handle, table_name, container_type)` —
loads the stored schema once, fails with `SchemaMismatch` when the requested
container type's schema does not match the stored one (or the table is
absent), and otherwise reconstructs one container per stored row in order. -/
def readTable (s : Sink) (g t : String) (ct : ContainerType) :
    Except EngineError (List Inst) :=
  match getKey s g with
  | none => .error .SchemaMismatch
  | some grp =>
    match getKey grp t with
    | none => .error .SchemaMismatch
    | some tb =>
      match build_schema ct with
      | .error e => .error e
      | .ok sch =>
        if tb.schema = sch then readRows ct.fields tb.rows
        else .error .SchemaMismatch

/-- Write a list of containers to one table in order, stopping at the first
error; a failed write leaves the sink as it was before that write. -/
def writeAll (s : Sink) (g t : String) (ct : ContainerType) :
    List Inst → Option EngineError × Sink
  | [] => (none, s)
  | c :: cs =>
    match writeTable s g t ct c with
    | (none, s2) => writeAll s2 g t ct cs
    | (some e, _) => (some e, s)

/-- Modelled from the spec: one operation driven through an open writer
handle's scope — a write of one container to a named table, or an explicit
close of the handle. -/
inductive WOp where
  | write : String → ContainerType → Inst → WOp
  | close : WOp

/-- Modelled from the spec: the state of a writer handle's scope — the sink
behind it, the handle's group, whether the backend resource is currently
open, and how many times it has been closed. -/
structure WriterState where
  sink : Sink
  groupName : String
  openFlag : Bool
  closeCount : Nat
  deriving DecidableEq

/-- Release the backend resource if it is still open (a second release does
nothing). -/
def applyClose (st : WriterState) : WriterState :=
  if st.openFlag then { st with openFlag := false, closeCount := st.closeCount + 1 }
  else st

/-- One step of a writing session: a write on a released handle fails with
`ResourceClosed`; a failed write leaves the state untouched; a close
releases the resource. -/
def stepOp (st : WriterState) : WOp → WriterState × Option EngineError
  | .close => (applyClose st, none)
  | .write t ct inst =>
    if st.openFlag then
      match writeTable st.sink st.groupName t ct inst with
      | (none, s2) => ({ st with sink := s2 }, none)
      | (some e, _) => (st, some e)
    else (st, some .ResourceClosed)

/-- Run session operations in order, stopping at the first error and
returning the state reached so far. -/
def runOps (st : WriterState) : List WOp → WriterState × Option EngineError
  | [] => (st, none)
  | op :: ops =>
    match stepOp st op with
    | (st2, none) => runOps st2 ops
    | (st2, some e) => (st2, some e)

/-- Modelled from the spec: scoped acquisition with guaranteed release — a
whole writer scope: open the handle, drive the body's operations until they
finish or the first error, then release the backend resource on the way out
of the scope whatever happened inside it. -/
def runSession (s : Sink) (g : String) (m : WriterMode) (ops : List WOp) :
    WriterState × Option EngineError :=
  match openWriter s g m with
  | (some e, s2) =>
      ({ sink := s2, groupName := g, openFlag := false, closeCount := 0 }, some e)
  | (none, s2) =>
      let r := runOps { sink := s2, groupName := g, openFlag := true, closeCount := 0 } ops
      (applyClose r.1, r.2)

/-- The stored row sequence of one table of the sink (empty when absent). -/
def tableRows (s : Sink) (g t : String) : List Row :=
  match getKey s g with
  | none => []
  | some grp =>
    match getKey grp t with
    | none => []
    | some tb => tb.rows

/-- The example container type of the scenario: an int field, a float field
declared in meters, and a bool field. -/
def VariousTypesContainer : ContainerType :=
  ⟨"VariousTypesContainer",
   .cons "a_int" (.scalar .int none)
     (.cons "a_float" (.scalar .float (some meters))
       (.cons "a_bool" (.scalar .bool none) .nil))⟩

/-- The i-th container of the example stream: `a_int = i`, `a_float = i`
supplied in centimeters, `a_bool = (i % 2 == 0)`. -/
def streamInst (i : Nat) : Inst :=
  .cons "a_int" (.leaf (.vInt i) none)
    (.cons "a_float" (.leaf (.vFloat ⟨i, 1⟩) (some centimeters))
      (.cons "a_bool" (.leaf (.vBool (i % 2 == 0)) none) .nil))

/-- The i-th container as read back: `a_float` converted to meters. -/
def streamInstRead (i : Nat) : Inst :=
  .cons "a_int" (.leaf (.vInt i) none)
    (.cons "a_float" (.leaf (.vFloat ⟨i, 100⟩) (some meters))
      (.cons "a_bool" (.leaf (.vBool (i % 2 == 0)) none) .nil))

/-- Decidable equality of fallible results, for evaluating the engine on
concrete inputs. -/
instance {ε α : Type} [DecidableEq ε] [DecidableEq α] : DecidableEq (Except ε α) :=
  fun a b =>
    match a, b with
    | .ok x, .ok y =>
      if h : x = y then isTrue (by rw [h])
      else isFalse (by intro he; injection he; contradiction)
    | .error e, .error f =>
      if h : e = f then isTrue (by rw [h])
      else isFalse (by intro he; injection he; contradiction)
    | .ok _, .error _ => isFalse (by intro h; exact Except.noConfusion h)
    | .error _, .ok _ => isFalse (by intro h; exact Except.noConfusion h)

/-- The resource bookkeeping invariant of a writer scope: either the backend
is still open and has never been closed, or it is closed and was closed
exactly once. -/
def goodState (st : WriterState) : Prop :=
  (st.openFlag = true ∧ st.closeCount = 0) ∨
  (st.openFlag = false ∧ st.closeCount = 1)

/-- Functional update of one top-level field of a container instance (the
model of mutating the shared instance in place between write calls). -/
def setField : FieldVals → String → FieldVal → FieldVals
  | .nil, _, _ => .nil
  | .cons n v rest, k, w =>
      if n = k then .cons n w rest else .cons n v (setField rest k w)

/-- Apply a batch of field updates in order to one instance. -/
def applyUpdates (c : Inst) : List (String × FieldVal) → Inst
  | [] => c
  | (k, w) :: us => applyUpdates (setField c k w) us

/-- The per-call states of a single mutable container instance: before each
write call one batch of updates is applied in place, and the state the
instance carries at that call is recorded. -/
def snapshots (c : Inst) : List (List (String × FieldVal)) → List Inst
  | [] => []
  | us :: rest => applyUpdates c us :: snapshots (applyUpdates c us) rest

/-- A concrete pre-existing table with one stored row. -/
def preTable : Table :=
  ⟨⟨[⟨"x", .int, none, ["x"]⟩]⟩, [("x", "")], [[.vInt 1]]⟩

/-- A concrete sink already holding the target group with one table. -/
def preSink : Sink := [("g", [("t", preTable)])]

/-- A single-field container type: one float field declared in meters. -/
def lengthType : ContainerType :=
  ⟨"LengthContainer", .cons "x" (.scalar .float (some meters)) .nil⟩

/-- A length container instance supplied in centimeters. -/
def cmInst : Inst := .cons "x" (.leaf (.vFloat ⟨5, 1⟩) (some centimeters)) .nil

/-- A length container instance supplied in the declared unit (meters). -/
def mInst : Inst := .cons "x" (.leaf (.vFloat ⟨7, 1⟩) (some meters)) .nil

/-- The result of writing the centimeter-supplied instance to a fresh
table. -/
def cmWritten : Option EngineError × Sink :=
  writeTable [("g", [])] "g" "t" lengthType cmInst

/-- The example schema of the scenario container type. -/
def schVT : Schema := ⟨flattenColsMany [] VariousTypesContainer.fields⟩

/-- The stored table after the first example write (the row of the 0th
stream container). -/
def tb0 : Table :=
  ⟨schVT, metadataOf schVT, [[.vInt 0, .vFloat ⟨0, 100⟩, .vBool true]]⟩

/-- A sink holding the example table after its first write. -/
def sVT : Sink := [("data", [("table", tb0)])]

/-- A container type lacking the a_bool field of the scenario type. -/
def missingFieldType : ContainerType :=
  ⟨"VariousTypesContainerV2",
   .cons "a_int" (.scalar .int none)
     (.cons "a_float" (.scalar .float (some meters)) .nil)⟩

/-- An instance matching the field-lacking container type. -/
def missingFieldInst : Inst :=
  .cons "a_int" (.leaf (.vInt 5) none)
    (.cons "a_float" (.leaf (.vFloat ⟨5, 1⟩) (some meters)) .nil)

/-- The writer opened on an empty sink for the concrete scenario. -/
def c2Opened : Option EngineError × Sink := openWriter [] "data" .Overwrite

/-- The sink after writing the 10 example stream containers. -/
def c2Written : Option EngineError × Sink :=
  writeAll c2Opened.2 "data" "table" VariousTypesContainer
    ((List.range 10).map streamInst)

/-- The update batch of the i-th call of the example loop: set every field
of the shared instance to its i-th values. -/
def streamUpdates (i : Nat) : List (String × FieldVal) :=
  [("a_int", .leaf (.vInt i) none),
   ("a_float", .leaf (.vFloat ⟨i, 1⟩) (some centimeters)),
   ("a_bool", .leaf (.vBool (i % 2 == 0)) none)]

theorem getKey_setKey_self {β : Type} (l : List (String × β)) (k : String) (b : β) :
    getKey (setKey l k b) k = some b := by
  induction l with
  | nil => simp [setKey, getKey]
  | cons hd tl ih =>
    obtain ⟨n, x⟩ := hd
    by_cases h : n = k
    · simp [setKey, getKey, h]
    · simp [setKey, getKey, h, ih]

theorem getKey_setKey_ne {β : Type} (l : List (String × β)) (k k2 : String) (b : β)
    (h : k ≠ k2) : getKey (setKey l k b) k2 = getKey l k2 := by
  induction l with
  | nil => simp [setKey, getKey, h]
  | cons hd tl ih =>
    obtain ⟨n, x⟩ := hd
    by_cases hn : n = k
    · subst hn
      simp [setKey, getKey, h]
    · simp [setKey, getKey, hn, ih]

theorem build_schema_ok_columns (ct : ContainerType) (sch : Schema)
    (h : build_schema ct = .ok sch) : sch.columns = flattenColsMany [] ct.fields := by
  unfold build_schema at h
  simp only [] at h
  split at h
  · injection h with h2
    rw [← h2]
  · exact Except.noConfusion h

mutual

theorem unflattenOne_flattenOne : (s : FieldSpec) → (v : FieldVal) →
    (row rest : List Value) → flattenValsOne s v = .ok row →
    unflattenOne s (row ++ rest) = some (normalizeOne s v, rest)
  | .scalar k u, .leaf w su, row, rest, h => by
    simp only [flattenValsOne] at h
    split at h
    · injection h with h2
      subst h2
      simp [unflattenOne, normalizeOne]
    · exact Except.noConfusion h
  | .scalar _ _, .sub _, _, _, h => by
    simp only [flattenValsOne] at h
    exact Except.noConfusion h
  | .nested _, .leaf _ _, _, _, h => by
    simp only [flattenValsOne] at h
    exact Except.noConfusion h
  | .nested fs, .sub gs, row, rest, h => by
    simp only [flattenValsOne] at h
    simp only [unflattenOne, normalizeOne,
      unflattenMany_flattenMany fs gs row rest h]

theorem unflattenMany_flattenMany : (ss : FieldSpecs) → (vs : FieldVals) →
    (row rest : List Value) → flattenValsMany ss vs = .ok row →
    unflattenMany ss (row ++ rest) = some (normalizeMany ss vs, rest)
  | .nil, .nil, row, rest, h => by
    simp only [flattenValsMany] at h
    injection h with h2
    subst h2
    simp [unflattenMany, normalizeMany]
  | .nil, .cons _ _ _, _, _, h => by
    simp only [flattenValsMany] at h
    exact Except.noConfusion h
  | .cons _ _ _, .nil, _, _, h => by
    simp only [flattenValsMany] at h
    exact Except.noConfusion h
  | .cons n s ss, .cons m v vs, row, rest, h => by
    simp only [flattenValsMany] at h
    split at h
    · cases h1 : flattenValsOne s v with
      | error e => rw [h1] at h; exact Except.noConfusion h
      | ok inner =>
        rw [h1] at h
        cases h2 : flattenValsMany ss vs with
        | error e => rw [h2] at h; exact Except.noConfusion h
        | ok rest2 =>
          rw [h2] at h
          injection h with h3
          subst h3
          rw [List.append_assoc]
          simp only [unflattenMany, normalizeMany,
            unflattenOne_flattenOne s v inner (rest2 ++ rest) h1,
            unflattenMany_flattenMany ss vs rest2 rest h2]
    · exact Except.noConfusion h

end

mutual

theorem normalizeOne_id : (s : FieldSpec) → (v : FieldVal) → (row : List Value) →
    flattenValsOne s v = .ok row → unitsMatchOne s v = true → normalizeOne s v = v
  | .scalar k u, .leaf w su, row, h, hu => by
    simp only [unitsMatchOne, decide_eq_true_eq] at hu
    subst hu
    cases w <;> cases su <;> simp [normalizeOne, convertLeaf]
  | .scalar _ _, .sub _, _, h, _ => by
    simp only [flattenValsOne] at h
    exact Except.noConfusion h
  | .nested _, .leaf _ _, _, h, _ => by
    simp only [flattenValsOne] at h
    exact Except.noConfusion h
  | .nested fs, .sub gs, row, h, hu => by
    simp only [flattenValsOne] at h
    simp only [unitsMatchOne] at hu
    simp only [normalizeOne, normalizeMany_id fs gs row h hu]

theorem normalizeMany_id : (ss : FieldSpecs) → (vs : FieldVals) → (row : List Value) →
    flattenValsMany ss vs = .ok row → unitsMatchMany ss vs = true →
    normalizeMany ss vs = vs
  | .nil, .nil, _, _, _ => by simp [normalizeMany]
  | .nil, .cons _ _ _, _, h, _ => by
    simp only [flattenValsMany] at h
    exact Except.noConfusion h
  | .cons _ _ _, .nil, _, h, _ => by
    simp only [flattenValsMany] at h
    exact Except.noConfusion h
  | .cons n s ss, .cons m v vs, row, h, hu => by
    simp only [flattenValsMany] at h
    simp only [unitsMatchMany, Bool.and_eq_true] at hu
    split at h
    · cases h1 : flattenValsOne s v with
      | error e => rw [h1] at h; exact Except.noConfusion h
      | ok inner =>
        rw [h1] at h
        cases h2 : flattenValsMany ss vs with
        | error e => rw [h2] at h; exact Except.noConfusion h
        | ok rest2 =>
          rename_i hnm
          subst hnm
          simp only [normalizeMany, normalizeOne_id s v inner h1 hu.1,
            normalizeMany_id ss vs rest2 h2 hu.2]
    · exact Except.noConfusion h

end

theorem readRows_flattenAll (ss : FieldSpecs) (cs : List Inst) (rows : List Row)
    (h : flattenAll ss cs = .ok rows) :
    readRows ss rows = .ok (cs.map (normalizeMany ss)) := by
  induction cs generalizing rows with
  | nil =>
    simp only [flattenAll] at h
    injection h with h2
    subst h2
    simp [readRows]
  | cons c cs ih =>
    simp only [flattenAll] at h
    cases h1 : flattenValsMany ss c with
    | error e => rw [h1] at h; exact Except.noConfusion h
    | ok r =>
      rw [h1] at h
      cases h2 : flattenAll ss cs with
      | error e => rw [h2] at h; exact Except.noConfusion h
      | ok rs =>
        rw [h2] at h
        injection h with h3
        subst h3
        have hr : readRow ss r = some (normalizeMany ss c) := by
          unfold readRow
          have hrt := unflattenMany_flattenMany ss c r [] h1
          rw [List.append_nil] at hrt
          rw [hrt]
        simp [readRows, hr, ih rs h2]

theorem writeTable_creates (s : Sink) (g t : String) (ct : ContainerType) (inst : Inst)
    (grp : Group) (sch : Schema) (row : List Value)
    (hgrp : getKey s g = some grp) (htb : getKey grp t = none)
    (hsch : build_schema ct = .ok sch)
    (hrow : flattenValsMany ct.fields inst = .ok row) :
    writeTable s g t ct inst
      = (none, setKey s g (setKey grp t ⟨sch, metadataOf sch, [row]⟩)) := by
  simp [writeTable, hgrp, htb, hsch, hrow]

theorem writeTable_appends (s : Sink) (g t : String) (ct : ContainerType) (inst : Inst)
    (grp : Group) (tb : Table) (row : List Value)
    (hgrp : getKey s g = some grp) (htb : getKey grp t = some tb)
    (hcols : tb.schema.columns = flattenColsMany [] ct.fields)
    (hrow : flattenValsMany ct.fields inst = .ok row) :
    writeTable s g t ct inst
      = (none, setKey s g (setKey grp t { tb with rows := tb.rows ++ [row] })) := by
  simp [writeTable, hgrp, htb, hcols, hrow]

theorem writeTable_mismatch (s : Sink) (g t : String) (ct : ContainerType) (inst : Inst)
    (grp : Group) (tb : Table) (row : List Value)
    (hgrp : getKey s g = some grp) (htb : getKey grp t = some tb)
    (hcols : tb.schema.columns ≠ flattenColsMany [] ct.fields)
    (hrow : flattenValsMany ct.fields inst = .ok row) :
    writeTable s g t ct inst = (some .SchemaMismatch, s) := by
  simp [writeTable, hgrp, htb, hcols, hrow]

theorem writeTable_flatten_error (s : Sink) (g t : String) (ct : ContainerType)
    (inst : Inst) (grp : Group) (tb : Table) (e : EngineError)
    (hgrp : getKey s g = some grp) (htb : getKey grp t = some tb)
    (hrow : flattenValsMany ct.fields inst = .error e) :
    writeTable s g t ct inst = (some e, s) := by
  simp [writeTable, hgrp, htb, hrow]

theorem writeAll_appends (cs : List Inst) : ∀ (s : Sink) (g t : String)
    (ct : ContainerType) (grp : Group) (tb : Table) (rows : List Row),
    getKey s g = some grp → getKey grp t = some tb →
    tb.schema.columns = flattenColsMany [] ct.fields →
    flattenAll ct.fields cs = .ok rows →
    (writeAll s g t ct cs).1 = none ∧
    ∃ grp2, getKey (writeAll s g t ct cs).2 g = some grp2 ∧
      getKey grp2 t = some (⟨tb.schema, tb.metadata, tb.rows ++ rows⟩ : Table) := by
  induction cs with
  | nil =>
    intro s g t ct grp tb rows hg ht hc hall
    simp only [flattenAll] at hall
    injection hall with h2
    subst h2
    refine ⟨rfl, grp, hg, ?_⟩
    rw [ht]
    cases tb
    simp
  | cons c cs ih =>
    intro s g t ct grp tb rows hg ht hc hall
    simp only [flattenAll] at hall
    cases h1 : flattenValsMany ct.fields c with
    | error e => rw [h1] at hall; exact Except.noConfusion hall
    | ok r =>
      rw [h1] at hall
      cases h2 : flattenAll ct.fields cs with
      | error e => rw [h2] at hall; exact Except.noConfusion hall
      | ok rs =>
        rw [h2] at hall
        injection hall with h3
        subst h3
        have hw := writeTable_appends s g t ct c grp tb r hg ht hc h1
        have hg2 : getKey (setKey s g (setKey grp t { tb with rows := tb.rows ++ [r] })) g
            = some (setKey grp t { tb with rows := tb.rows ++ [r] }) :=
          getKey_setKey_self s g _
        have ht2 : getKey (setKey grp t { tb with rows := tb.rows ++ [r] }) t
            = some { tb with rows := tb.rows ++ [r] } :=
          getKey_setKey_self grp t _
        have := ih (setKey s g (setKey grp t { tb with rows := tb.rows ++ [r] }))
          g t ct (setKey grp t { tb with rows := tb.rows ++ [r] })
          { tb with rows := tb.rows ++ [r] } rs hg2 ht2 hc h2
        simp only [writeAll, hw] at this ⊢
        simpa [List.append_assoc] using this

theorem freshWriteRead (s : Sink) (g t : String) (ct : ContainerType) (grp : Group)
    (sch : Schema) (c : Inst) (cs : List Inst) (rows : List Row)
    (hgrp : getKey s g = some grp) (htb : getKey grp t = none)
    (hsch : build_schema ct = .ok sch)
    (hall : flattenAll ct.fields (c :: cs) = .ok rows) :
    (writeAll s g t ct (c :: cs)).1 = none ∧
    readTable (writeAll s g t ct (c :: cs)).2 g t ct
      = .ok ((c :: cs).map (normalizeMany ct.fields)) ∧
    tableRows (writeAll s g t ct (c :: cs)).2 g t = rows := by
  simp only [flattenAll] at hall
  cases h1 : flattenValsMany ct.fields c with
  | error e => rw [h1] at hall; exact Except.noConfusion hall
  | ok r =>
    rw [h1] at hall
    cases h2 : flattenAll ct.fields cs with
    | error e => rw [h2] at hall; exact Except.noConfusion hall
    | ok rs =>
      rw [h2] at hall
      injection hall with h3
      subst h3
      have hw := writeTable_creates s g t ct c grp sch r hgrp htb hsch h1
      have hcols := build_schema_ok_columns ct sch hsch
      have hg2 : getKey (setKey s g (setKey grp t ⟨sch, metadataOf sch, [r]⟩)) g
          = some (setKey grp t ⟨sch, metadataOf sch, [r]⟩) := getKey_setKey_self s g _
      have ht2 : getKey (setKey grp t ⟨sch, metadataOf sch, [r]⟩) t
          = some ⟨sch, metadataOf sch, [r]⟩ := getKey_setKey_self grp t _
      have hrest := writeAll_appends cs
        (setKey s g (setKey grp t ⟨sch, metadataOf sch, [r]⟩)) g t ct
        (setKey grp t ⟨sch, metadataOf sch, [r]⟩) ⟨sch, metadataOf sch, [r]⟩ rs
        hg2 ht2 hcols h2
      obtain ⟨hnone, grp2, hga, hta⟩ := hrest
      have hread : readRows ct.fields (r :: rs)
          = .ok ((c :: cs).map (normalizeMany ct.fields)) := by
        apply readRows_flattenAll
        simp [flattenAll, h1, h2]
      constructor
      · simp only [writeAll, hw]
        exact hnone
      constructor
      · simp only [writeAll, hw]
        simp only [readTable, hga, hta, hsch]
        simp [hread]
      · simp only [writeAll, hw]
        simp only [tableRows, hga, hta]
        rfl

theorem applyClose_closed (st : WriterState) (h : goodState st) :
    (applyClose st).openFlag = false ∧ (applyClose st).closeCount = 1 := by
  rcases h with ⟨h1, h2⟩ | ⟨h1, h2⟩ <;> simp [applyClose, h1, h2]

theorem stepOp_good (st : WriterState) (op : WOp) (h : goodState st) :
    goodState (stepOp st op).1 := by
  cases op with
  | close =>
    have := applyClose_closed st h
    exact Or.inr ⟨this.1, this.2⟩
  | write t ct inst =>
    rcases h with ⟨h1, h2⟩ | ⟨h1, h2⟩
    · simp only [stepOp, h1, if_true]
      cases hw : writeTable st.sink st.groupName t ct inst with
      | mk e s2 =>
        cases e with
        | none => exact Or.inl ⟨rfl, h2⟩
        | some e2 => exact Or.inl ⟨h1, h2⟩
    · simp only [stepOp, h1]
      exact Or.inr ⟨h1, h2⟩

theorem runOps_good (ops : List WOp) : ∀ (st : WriterState), goodState st →
    goodState (runOps st ops).1 := by
  induction ops with
  | nil => intro st h; exact h
  | cons op ops ih =>
    intro st h
    have hstep := stepOp_good st op h
    cases hs : stepOp st op with
    | mk st2 e =>
      rw [hs] at hstep
      cases e with
      | none => simp only [runOps, hs]; exact ih st2 hstep
      | some e2 => simp only [runOps, hs]; exact hstep

theorem applyClose_sink (st : WriterState) : (applyClose st).sink = st.sink := by
  unfold applyClose
  split <;> rfl

theorem writeTable_sink_cases (s : Sink) (g t : String) (ct : ContainerType)
    (inst : Inst) :
    (writeTable s g t ct inst).2 = s ∨
    ∃ tbNew : Table, (writeTable s g t ct inst).2
        = setKey s g (setKey ((getKey s g).getD []) t tbNew) ∧
      ∃ row, tbNew.rows = tableRows s g t ++ [row] := by
  cases hgt : getKey ((getKey s g).getD []) t with
  | none =>
    cases hbs : build_schema ct with
    | error e => left; simp [writeTable, hgt, hbs]
    | ok sch =>
      cases hfv : flattenValsMany ct.fields inst with
      | error e => left; simp [writeTable, hgt, hbs, hfv]
      | ok row =>
        right
        refine ⟨⟨sch, metadataOf sch, [row]⟩, ?_, row, ?_⟩
        · simp [writeTable, hgt, hbs, hfv]
        · have hz : tableRows s g t = [] := by
            unfold tableRows
            cases hsg : getKey s g with
            | none => rfl
            | some grp0 =>
              rw [hsg] at hgt
              simp only [Option.getD] at hgt
              simp [hgt]
          rw [hz]
          rfl
  | some tb =>
    cases hfv : flattenValsMany ct.fields inst with
    | error e => left; simp [writeTable, hgt, hfv]
    | ok row =>
      by_cases hcols : tb.schema.columns = flattenColsMany [] ct.fields
      · right
        refine ⟨{ tb with rows := tb.rows ++ [row] }, ?_, row, ?_⟩
        · simp [writeTable, hgt, hfv, hcols]
        · have hz : tableRows s g t = tb.rows := by
            unfold tableRows
            cases hsg : getKey s g with
            | none =>
              rw [hsg] at hgt
              simp only [Option.getD] at hgt
              exact Option.noConfusion hgt
            | some grp0 =>
              rw [hsg] at hgt
              simp only [Option.getD] at hgt
              simp [hgt]
          rw [hz]
      · left; simp [writeTable, hgt, hfv, hcols]

theorem tableRows_after_set (s : Sink) (g t : String) (tbNew : Table) (g2 t2 : String) :
    tableRows (setKey s g (setKey ((getKey s g).getD []) t tbNew)) g2 t2
      = if g2 = g ∧ t2 = t then tbNew.rows else tableRows s g2 t2 := by
  by_cases hg : g2 = g
  case neg =>
    have h1 : getKey (setKey s g (setKey ((getKey s g).getD []) t tbNew)) g2
        = getKey s g2 := getKey_setKey_ne s g g2 _ (fun he => hg he.symm)
    simp only [tableRows, h1, hg, false_and, if_false]
  case pos =>
    rw [hg]
    have h1 : getKey (setKey s g (setKey ((getKey s g).getD []) t tbNew)) g
        = some (setKey ((getKey s g).getD []) t tbNew) := getKey_setKey_self s g _
    by_cases ht : t2 = t
    · rw [ht]
      simp only [tableRows, h1, getKey_setKey_self, and_self, if_true]
    · have h2 : getKey (setKey ((getKey s g).getD []) t tbNew) t2
          = getKey ((getKey s g).getD []) t2 :=
        getKey_setKey_ne _ t t2 _ (fun he => ht he.symm)
      simp only [tableRows, h1, h2, ht, and_false, if_false]
      cases hsg : getKey s g with
      | none => simp only [Option.getD]; rfl
      | some grp0 => simp only [Option.getD]

theorem writeTable_extends (s : Sink) (g t : String) (ct : ContainerType) (inst : Inst)
    (g2 t2 : String) :
    ∃ new, tableRows (writeTable s g t ct inst).2 g2 t2 = tableRows s g2 t2 ++ new := by
  rcases writeTable_sink_cases s g t ct inst with h | ⟨tbNew, h, row, hr⟩
  · exact ⟨[], by rw [h, List.append_nil]⟩
  · rw [h, tableRows_after_set]
    by_cases hc : g2 = g ∧ t2 = t
    · rcases hc with ⟨hcg, hct⟩
      refine ⟨[row], ?_⟩
      rw [if_pos ⟨hcg, hct⟩, hr, hcg, hct]
    · exact ⟨[], by rw [if_neg hc, List.append_nil]⟩

theorem stepOp_extends (st : WriterState) (op : WOp) (g t : String) :
    ∃ new, tableRows (stepOp st op).1.sink g t = tableRows st.sink g t ++ new := by
  cases op with
  | close =>
    refine ⟨[], ?_⟩
    simp [stepOp, applyClose_sink]
  | write t3 ct inst =>
    by_cases ho : st.openFlag
    · simp only [stepOp, ho, if_true]
      cases hw : writeTable st.sink st.groupName t3 ct inst with
      | mk e s2 =>
        cases e with
        | none =>
          have := writeTable_extends st.sink st.groupName t3 ct inst g t
          rw [hw] at this
          exact this
        | some e2 => exact ⟨[], by simp⟩
    · simp only [stepOp, ho, if_false]
      exact ⟨[], by simp⟩

theorem runOps_extends (ops : List WOp) : ∀ (st : WriterState) (g t : String),
    ∃ new, tableRows (runOps st ops).1.sink g t = tableRows st.sink g t ++ new := by
  induction ops with
  | nil => intro st g t; exact ⟨[], by simp [runOps]⟩
  | cons op ops ih =>
    intro st g t
    obtain ⟨n1, h1⟩ := stepOp_extends st op g t
    cases hs : stepOp st op with
    | mk st2 e =>
      rw [hs] at h1
      cases e with
      | none =>
        obtain ⟨n2, h2⟩ := ih st2 g t
        refine ⟨n1 ++ n2, ?_⟩
        simp only [runOps, hs]
        rw [h2, h1, List.append_assoc]
      | some e2 =>
        refine ⟨n1, ?_⟩
        simp only [runOps, hs]
        exact h1

/-- C2: writing the 10 example stream containers (a_int = i, a_float = i
supplied in centimeters, a_bool = decide (i % 2 = 0)) and reading the table
back yields exactly 10 rows with a_int equal to 0..9, a_float equal to
0/100, 1/100, ..., 9/100 meters (each centimeter value converted to the
declared unit before storage) and a_bool alternating true, false, ... -/
theorem claim_C2_concrete_scenario :
    c2Opened.1 = none ∧ c2Written.1 = none ∧
    readTable c2Written.2 "data" "table" VariousTypesContainer
      = .ok ((List.range 10).map streamInstRead) ∧
    ((List.range 10).map streamInstRead).length = 10 := by
  decide

/-- C5: opening a table writer in AppendCreateOnly mode against a sink that
already contains the target group fails with GroupExists and returns the
sink — hence the existing group's tables, rows and metadata — unchanged. -/
theorem claim_C5_append_create_only_conflict (s : Sink) (g : String) (grp : Group)
    (h : getKey s g = some grp) :
    openWriter s g .AppendCreateOnly = (some .GroupExists, s) := by
  simp [openWriter, h]

theorem claim_C5_witness :
    openWriter preSink "g" .AppendCreateOnly = (some .GroupExists, preSink) :=
  claim_C5_append_create_only_conflict preSink "g" [("t", preTable)] rfl

/-- C7: whenever a writer handle's scope opens successfully, the backend
resource is closed exactly once and is no longer open when the scope
returns, on every exit path — normal completion, explicit close inside the
body, or an error raised during any write, whatever rows were written. -/
theorem claim_C7_scoped_release (s : Sink) (g : String) (m : WriterMode)
    (ops : List WOp) (h : (openWriter s g m).1 = none) :
    (runSession s g m ops).1.closeCount = 1 ∧
    (runSession s g m ops).1.openFlag = false := by
  cases hp : openWriter s g m with
  | mk e s2 =>
    rw [hp] at h
    simp only at h
    subst h
    simp only [runSession, hp]
    have hgood := runOps_good ops
      { sink := s2, groupName := g, openFlag := true, closeCount := 0 }
      (Or.inl ⟨rfl, rfl⟩)
    have hc := applyClose_closed _ hgood
    exact ⟨hc.2, hc.1⟩

theorem claim_C7_witness :
    (runSession [] "d" .Overwrite
      [.write "t" VariousTypesContainer (streamInst 0), .close,
       .write "t" VariousTypesContainer (streamInst 1)]).1.closeCount = 1 ∧
    (runSession [] "d" .Overwrite
      [.write "t" VariousTypesContainer (streamInst 0), .close,
       .write "t" VariousTypesContainer (streamInst 1)]).1.openFlag = false :=
  claim_C7_scoped_release [] "d" .Overwrite
    [.write "t" VariousTypesContainer (streamInst 0), .close,
     .write "t" VariousTypesContainer (streamInst 1)] rfl

/-- C8 counterexample: opening a writer in Overwrite mode is an engine
operation that neither appends rows nor leaves a table's row sequence
unchanged — it destroys the stored row of the pre-existing table, so the
row sequence does not only ever grow across every operation. -/
theorem claim_C8_counterexample :
    tableRows preSink "g" "t" = [[.vInt 1]] ∧
    tableRows (openWriter preSink "g" .Overwrite).2 "g" "t" = [] ∧
    ¬ ∃ new, tableRows (openWriter preSink "g" .Overwrite).2 "g" "t"
        = tableRows preSink "g" "t" ++ new := by
  refine ⟨rfl, rfl, ?_⟩
  rintro ⟨new, hnew⟩
  rw [show tableRows (openWriter preSink "g" .Overwrite).2 "g" "t" = [] from rfl,
    show tableRows preSink "g" "t" = [[.vInt 1]] from rfl] at hnew
  simp at hnew

/-- C8 (amended): within an open writing session every operation — a write,
successful or failed, or a close — either appends rows to a table or leaves
its row sequence unchanged, and rows appended before an error remain
durable: the row sequence of every table after running any prefix of the
session extends the one before it. (Opening a writer in Overwrite mode is
exempt: the spec has it destroy the sink's prior content.) -/
theorem claim_C8_append_only (st : WriterState) (op : WOp) (ops : List WOp)
    (g t : String) :
    (∃ new, tableRows (stepOp st op).1.sink g t = tableRows st.sink g t ++ new) ∧
    (∃ new, tableRows (runOps st ops).1.sink g t = tableRows st.sink g t ++ new) :=
  ⟨stepOp_extends st op g t, runOps_extends ops st g t⟩

/-- C9: schema building is deterministic and a pure function of the
container type's field declarations: two container types with identical
field-declaration order yield identical schemas (same ordered flat names,
storage types and units), independent of any other state such as the type
name. -/
theorem claim_C9_build_schema_deterministic (t1 t2 : ContainerType)
    (h : t1.fields = t2.fields) : build_schema t1 = build_schema t2 := by
  unfold build_schema
  rw [h]

theorem claim_C9_witness :
    build_schema (ContainerType.mk "FirstName" lengthType.fields)
      = build_schema (ContainerType.mk "OtherName" lengthType.fields) :=
  claim_C9_build_schema_deterministic
    (ContainerType.mk "FirstName" lengthType.fields)
    (ContainerType.mk "OtherName" lengthType.fields) rfl

/-- C1 counterexample: the write-then-read round trip is not the identity on
every container instance: a float field declared in meters whose value is
supplied in centimeters reads back converted to meters and tagged with
meters, which differs from the instance as written in both field value and
unit. -/
theorem claim_C1_counterexample :
    cmWritten.1 = none ∧
    readTable cmWritten.2 "g" "t" lengthType
      = .ok [.cons "x" (.leaf (.vFloat ⟨5, 100⟩) (some meters)) .nil] ∧
    readTable cmWritten.2 "g" "t" lengthType ≠ .ok [cmInst] := by
  decide

/-- C1 (amended): for every container instance c of a registered type whose
unit-tagged field values are supplied in their fields' declared units,
writing c to a fresh table and reading the table back yields exactly c —
every field value and unit equal; values supplied in other units instead
read back converted to, and tagged with, the declared unit. -/
theorem claim_C1_round_trip (s : Sink) (g t : String) (ct : ContainerType)
    (grp : Group) (sch : Schema) (c : Inst) (row : List Value)
    (hgrp : getKey s g = some grp) (htb : getKey grp t = none)
    (hsch : build_schema ct = .ok sch)
    (hrow : flattenValsMany ct.fields c = .ok row)
    (hunits : unitsMatchMany ct.fields c = true) :
    (writeTable s g t ct c).1 = none ∧
    readTable (writeTable s g t ct c).2 g t ct = .ok [c] := by
  have hw := writeTable_creates s g t ct c grp sch row hgrp htb hsch hrow
  constructor
  · rw [hw]
  · rw [hw]
    have hg2 := getKey_setKey_self s g (setKey grp t ⟨sch, metadataOf sch, [row]⟩)
    have ht2 := getKey_setKey_self grp t (⟨sch, metadataOf sch, [row]⟩ : Table)
    simp only [readTable, hg2, ht2, hsch, if_pos rfl]
    have h1 : readRow ct.fields row = some (normalizeMany ct.fields c) := by
      unfold readRow
      have hrt := unflattenMany_flattenMany ct.fields c row [] hrow
      rw [List.append_nil] at hrt
      rw [hrt]
    rw [normalizeMany_id ct.fields c row hrow hunits] at h1
    simp [readRows, h1]

theorem claim_C1_witness :
    (writeTable [("g", [])] "g" "t" lengthType mInst).1 = none ∧
    readTable (writeTable [("g", [])] "g" "t" lengthType mInst).2 "g" "t" lengthType
      = .ok [mInst] :=
  claim_C1_round_trip [("g", [])] "g" "t" lengthType []
    ⟨flattenColsMany [] lengthType.fields⟩ mInst
    [.vFloat ⟨7, 1⟩] rfl rfl (by decide) (by decide) (by decide)

/-- C3: for every N ≥ 1, writing N containers of one type to a fresh table
and reading the table back yields exactly N reconstructed containers — the
read-back list is the per-instance read-back image of the written list, in
write order, and has length N. -/
theorem claim_C3_write_order (s : Sink) (g t : String) (ct : ContainerType)
    (grp : Group) (sch : Schema) (c : Inst) (cs : List Inst) (rows : List Row)
    (hgrp : getKey s g = some grp) (htb : getKey grp t = none)
    (hsch : build_schema ct = .ok sch)
    (hall : flattenAll ct.fields (c :: cs) = .ok rows) :
    (writeAll s g t ct (c :: cs)).1 = none ∧
    readTable (writeAll s g t ct (c :: cs)).2 g t ct
      = .ok ((c :: cs).map (normalizeMany ct.fields)) ∧
    ((c :: cs).map (normalizeMany ct.fields)).length = (c :: cs).length := by
  have h := freshWriteRead s g t ct grp sch c cs rows hgrp htb hsch hall
  exact ⟨h.1, h.2.1, by simp⟩

theorem claim_C3_witness :
    (writeAll [("data", [])] "data" "table" VariousTypesContainer
        [streamInst 0, streamInst 1]).1 = none ∧
    readTable (writeAll [("data", [])] "data" "table" VariousTypesContainer
        [streamInst 0, streamInst 1]).2 "data" "table" VariousTypesContainer
      = .ok ([streamInst 0, streamInst 1].map
          (normalizeMany VariousTypesContainer.fields)) ∧
    ([streamInst 0, streamInst 1].map
        (normalizeMany VariousTypesContainer.fields)).length
      = [streamInst 0, streamInst 1].length :=
  claim_C3_write_order [("data", [])] "data" "table" VariousTypesContainer []
    schVT (streamInst 0) [streamInst 1]
    [[.vInt 0, .vFloat ⟨0, 100⟩, .vBool true],
     [.vInt 1, .vFloat ⟨1, 100⟩, .vBool false]]
    rfl rfl (by decide) (by decide)

/-- C4: opening a table writer in AppendOrExtend mode creates the target
group when absent and succeeds without touching the sink when the group
exists; a subsequent write whose container flattens to the stored schema
appends a row to the existing table, and only an incompatible flattened
column set fails, with SchemaMismatch and the sink unchanged. -/
theorem claim_C4_append_or_extend (s : Sink) (g t : String) (ct : ContainerType)
    (inst : Inst) (grp : Group) (tb : Table) (row : List Value) :
    (getKey s g = none →
      openWriter s g .AppendOrExtend = (none, setKey s g []) ∧
      getKey (setKey s g []) g = some []) ∧
    (getKey s g = some grp → openWriter s g .AppendOrExtend = (none, s)) ∧
    (getKey s g = some grp → getKey grp t = some tb →
      tb.schema.columns = flattenColsMany [] ct.fields →
      flattenValsMany ct.fields inst = .ok row →
      (writeTable s g t ct inst).1 = none ∧
      tableRows (writeTable s g t ct inst).2 g t = tb.rows ++ [row]) ∧
    (getKey s g = some grp → getKey grp t = some tb →
      flattenValsMany ct.fields inst = .ok row →
      tb.schema.columns ≠ flattenColsMany [] ct.fields →
      writeTable s g t ct inst = (some .SchemaMismatch, s)) := by
  refine ⟨?_, ?_, ?_, ?_⟩
  · intro h
    exact ⟨by simp [openWriter, h], getKey_setKey_self s g []⟩
  · intro h
    simp [openWriter, h]
  · intro h1 h2 h3 h4
    have hw := writeTable_appends s g t ct inst grp tb row h1 h2 h3 h4
    refine ⟨by rw [hw], ?_⟩
    rw [hw]
    have hks : setKey s g (setKey grp t { tb with rows := tb.rows ++ [row] })
        = setKey s g (setKey ((getKey s g).getD []) t
            { tb with rows := tb.rows ++ [row] }) := by
      rw [h1]
      rfl
    rw [hks]
    rw [tableRows_after_set s g t { tb with rows := tb.rows ++ [row] } g t]
    simp
  · intro h1 h2 h3 h4
    exact writeTable_mismatch s g t ct inst grp tb row h1 h2 h4 h3

theorem claim_C4_witness :
    (openWriter [] "g" .AppendOrExtend = (none, ([("g", [])] : Sink)) ∧
      getKey ([("g", [])] : Sink) "g" = some ([] : Group)) ∧
    openWriter sVT "data" .AppendOrExtend = (none, sVT) ∧
    ((writeTable sVT "data" "table" VariousTypesContainer (streamInst 1)).1 = none ∧
      tableRows (writeTable sVT "data" "table" VariousTypesContainer
          (streamInst 1)).2 "data" "table"
        = tb0.rows ++ [[.vInt 1, .vFloat ⟨1, 100⟩, .vBool false]]) ∧
    writeTable sVT "data" "table" missingFieldType missingFieldInst
      = (some .SchemaMismatch, sVT) := by
  refine ⟨?_, ?_, ?_, ?_⟩
  · exact (claim_C4_append_or_extend [] "g" "t" lengthType mInst [] preTable []).1 rfl
  · exact (claim_C4_append_or_extend sVT "data" "t" lengthType mInst
      [("table", tb0)] preTable []).2.1 rfl
  · exact (claim_C4_append_or_extend sVT "data" "table" VariousTypesContainer
      (streamInst 1) [("table", tb0)] tb0
      [.vInt 1, .vFloat ⟨1, 100⟩, .vBool false]).2.2.1 rfl rfl (by decide) (by decide)
  · exact (claim_C4_append_or_extend sVT "data" "table" missingFieldType
      missingFieldInst [("table", tb0)] tb0
      [.vInt 5, .vFloat ⟨5, 1⟩]).2.2.2 rfl rfl (by decide) (by decide)

/-- C6: once a table's schema has been fixed by its first write, a write
call with a container whose flattened column set or types differ from that
schema — or whose values no longer flatten against its declarations —
fails with SchemaMismatch, the sink is returned unchanged, and the table's
row sequence (hence its row count) is the same after the failed call. -/
theorem claim_C6_schema_mismatch_rejection (s : Sink) (g t : String)
    (ct : ContainerType) (inst : Inst) (grp : Group) (tb : Table)
    (h1 : getKey s g = some grp) (h2 : getKey grp t = some tb) :
    (∀ row, flattenValsMany ct.fields inst = .ok row →
      tb.schema.columns ≠ flattenColsMany [] ct.fields →
      writeTable s g t ct inst = (some .SchemaMismatch, s) ∧
      tableRows (writeTable s g t ct inst).2 g t = tb.rows) ∧
    (flattenValsMany ct.fields inst = .error .SchemaMismatch →
      writeTable s g t ct inst = (some .SchemaMismatch, s) ∧
      tableRows (writeTable s g t ct inst).2 g t = tb.rows) := by
  have hrows : tableRows s g t = tb.rows := by
    simp [tableRows, h1, h2]
  constructor
  · intro row hrow hcols
    have hw := writeTable_mismatch s g t ct inst grp tb row h1 h2 hcols hrow
    exact ⟨hw, by rw [hw]; exact hrows⟩
  · intro herr
    have hw := writeTable_flatten_error s g t ct inst grp tb .SchemaMismatch h1 h2 herr
    exact ⟨hw, by rw [hw]; exact hrows⟩

theorem claim_C6_witness :
    (writeTable sVT "data" "table" missingFieldType missingFieldInst
        = (some .SchemaMismatch, sVT) ∧
      tableRows (writeTable sVT "data" "table" missingFieldType
          missingFieldInst).2 "data" "table" = tb0.rows) ∧
    (writeTable sVT "data" "table" VariousTypesContainer missingFieldInst
        = (some .SchemaMismatch, sVT) ∧
      tableRows (writeTable sVT "data" "table" VariousTypesContainer
          missingFieldInst).2 "data" "table" = tb0.rows) := by
  constructor
  · exact (claim_C6_schema_mismatch_rejection sVT "data" "table" missingFieldType
      missingFieldInst [("table", tb0)] tb0 rfl rfl).1
      [.vInt 5, .vFloat ⟨5, 1⟩] (by decide) (by decide)
  · exact (claim_C6_schema_mismatch_rejection sVT "data" "table"
      VariousTypesContainer missingFieldInst [("table", tb0)] tb0 rfl rfl).2
      (by decide)

/-- C10: the writer snapshots field values at each write call: writing the
per-call states of one shared container instance, mutated in place between
calls, appends one row per call holding exactly the values the instance
carried at that call, and reading back yields the per-call states (not N
copies of the final state). -/
theorem claim_C10_snapshot_semantics (s : Sink) (g t : String)
    (ct : ContainerType) (grp : Group) (sch : Schema) (c0 : Inst)
    (us : List (String × FieldVal)) (muts : List (List (String × FieldVal)))
    (rows : List Row)
    (hgrp : getKey s g = some grp) (htb : getKey grp t = none)
    (hsch : build_schema ct = .ok sch)
    (hall : flattenAll ct.fields (snapshots c0 (us :: muts)) = .ok rows) :
    (writeAll s g t ct (snapshots c0 (us :: muts))).1 = none ∧
    tableRows (writeAll s g t ct (snapshots c0 (us :: muts))).2 g t = rows ∧
    readTable (writeAll s g t ct (snapshots c0 (us :: muts))).2 g t ct
      = .ok ((snapshots c0 (us :: muts)).map (normalizeMany ct.fields)) := by
  have h := freshWriteRead s g t ct grp sch (applyUpdates c0 us)
    (snapshots (applyUpdates c0 us) muts) rows hgrp htb hsch hall
  exact ⟨h.1, h.2.2, h.2.1⟩

theorem claim_C10_witness :
    (writeAll [("data", [])] "data" "table" VariousTypesContainer
        (snapshots (streamInst 0) [streamUpdates 0, streamUpdates 1])).1 = none ∧
    tableRows (writeAll [("data", [])] "data" "table" VariousTypesContainer
        (snapshots (streamInst 0) [streamUpdates 0, streamUpdates 1])).2
        "data" "table"
      = [[.vInt 0, .vFloat ⟨0, 100⟩, .vBool true],
         [.vInt 1, .vFloat ⟨1, 100⟩, .vBool false]] ∧
    readTable (writeAll [("data", [])] "data" "table" VariousTypesContainer
        (snapshots (streamInst 0) [streamUpdates 0, streamUpdates 1])).2
        "data" "table" VariousTypesContainer
      = .ok ((snapshots (streamInst 0) [streamUpdates 0, streamUpdates 1]).map
          (normalizeMany VariousTypesContainer.fields)) :=
  claim_C10_snapshot_semantics [("data", [])] "data" "table"
    VariousTypesContainer [] schVT (streamInst 0) (streamUpdates 0)
    [streamUpdates 1]
    [[.vInt 0, .vFloat ⟨0, 100⟩, .vBool true],
     [.vInt 1, .vFloat ⟨1, 100⟩, .vBool false]]
    rfl rfl (by decide) (by decide)

end TabularEngine
